import Mathlib

/-
Verification of the PolicyTLDR policy ingestion, caching and AI-response
normalization pipeline.

The definitions below are a shallow embedding of the JavaScript sources:
  * src/src/ai.js        — response normalization (stripCodeFences,
                           tryParseJsonFromContent, clampScore,
                           extractFromUnstructured, the norm block of
                           summarizePolicy and its final validation)
  * src/unnamed/part_004 — background script (hashText, normalizeWhitespace,
                           extractBodyTextFromHTML, the SUMMARIZE_POLICY
                           cache step)
  * src/src/storage.js   — summary store (saveSummary, getSummary,
                           removeSummary)

Modelling conventions:
  * JavaScript runtime values reaching the normalization code are modelled
    by the inductive type JVal; JavaScript numbers are modelled by JsNum,
    an exact fraction given as an integer numerator over a positive
    denominator (a power of ten in every value this code produces), and by
    Option JsNum at Number(...) coercion points, with none playing the role
    of NaN.  Fractions are kept unnormalized so that every arithmetic step
    is a kernel-reducible integer operation.
  * The regular-expression character class \s (also the set stripped by
    String.prototype.trim) is modelled in full: the ASCII whitespace
    characters including the vertical tab, the no-break space, the Ogham
    space mark, the en-quad..hair-space range, the line and paragraph
    separators, the narrow no-break space, the medium mathematical space,
    the ideographic space and the byte-order mark.
  * Regular expressions appearing in the sources are compiled by hand into
    matching functions that reproduce the leftmost-match, greedy-with-
    backtracking semantics of each concrete pattern; each function carries
    a comment naming the pattern it implements.
-/

/-! ### Character classes and elementary string helpers -/

/-- The regex class \s of JavaScript, which is also the character set
stripped by String.prototype.trim: ASCII whitespace (including the
vertical tab U+000B) plus the Unicode space characters, line and
paragraph separators and the byte-order mark. -/
def reWs (c : Char) : Bool :=
  let n := c.toNat
  n == 0x20 || n == 0x09 || n == 0x0a || n == 0x0b || n == 0x0c || n == 0x0d ||
  n == 0xa0 || n == 0x1680 || (0x2000 ≤ n && n ≤ 0x200a) ||
  n == 0x2028 || n == 0x2029 || n == 0x202f || n == 0x205f ||
  n == 0x3000 || n == 0xfeff

/-- The regex class [\t\f\r ] used by normalizeWhitespace: horizontal whitespace. -/
def hwsChar (c : Char) : Bool :=
  c == ' ' || c == '\t' || c == '\r' || c == '\x0c'

/-- The regex class \w = [A-Za-z0-9_], used by the \b boundary assertions. -/
def wordChar (c : Char) : Bool :=
  (('a' ≤ c && c ≤ 'z') || ('A' ≤ c && c ≤ 'Z') || ('0' ≤ c && c ≤ '9') || c == '_')

def isAsciiAlpha (c : Char) : Bool :=
  ('a' ≤ c && c ≤ 'z') || ('A' ≤ c && c ≤ 'Z')

def isDigitChar (c : Char) : Bool :=
  '0' ≤ c && c ≤ '9'

def digitVal (c : Char) : Nat :=
  c.toNat - '0'.toNat

/-- ASCII lower-casing, the effect of the /i flag on the ASCII letters. -/
def asciiLower (c : Char) : Char :=
  if 'A' ≤ c && c ≤ 'Z' then Char.ofNat (c.toNat + 32) else c

/-- Drop the trailing run of characters satisfying p, recursing from the
left so that no list reversal is needed in the invariant proofs. -/
def dropTrailWhile (p : Char → Bool) : List Char → List Char
  | [] => []
  | c :: rest =>
    match dropTrailWhile p rest with
    | [] => if p c then [] else [c]
    | d :: ds => c :: d :: ds

/-- Drop trailing whitespace. -/
def trimRightWs (l : List Char) : List Char :=
  dropTrailWhile reWs l

/-- JavaScript String.prototype.trim restricted to the modelled whitespace set. -/
def jsTrimL (l : List Char) : List Char :=
  trimRightWs (l.dropWhile reWs)

def jsTrim (s : String) : String :=
  String.mk (jsTrimL s.toList)

/-- Split a character list at every newline. -/
def splitNl : List Char → List (List Char)
  | [] => [[]]
  | c :: rest =>
    if c == '\n' then [] :: splitNl rest
    else
      match splitNl rest with
      | h :: t => (c :: h) :: t
      | [] => [[c]]

/-- Split on /\r?\n/: split at every newline and drop one carriage return
left at the end of each piece. -/
def splitLinesCRLF (s : String) : List String :=
  (splitNl s.toList).map (fun p =>
    match p.getLast? with
    | some '\r' => String.mk p.dropLast
    | _ => String.mk p)

/-- Array.prototype.join with the given separator. -/
def joinWith (sep : List Char) : List (List Char) → List Char
  | [] => []
  | [x] => x
  | x :: y :: t => x ++ sep ++ joinWith sep (y :: t)

def joinNl (ls : List String) : String :=
  String.mk (joinWith ['\n'] (ls.map String.toList))

def joinSpace (ls : List String) : String :=
  String.mk (joinWith [' '] (ls.map String.toList))

/-- Helper of splitWsWords: acc holds the reversed characters of the word
being read. -/
def splitWsWordsAux : List Char → List Char → List String
  | acc, [] => if acc.isEmpty then [] else [String.mk acc.reverse]
  | acc, c :: rest =>
    if reWs c then
      if acc.isEmpty then splitWsWordsAux [] rest
      else String.mk acc.reverse :: splitWsWordsAux [] rest
    else splitWsWordsAux (c :: acc) rest

/-- Split on /\s+/ and filter(Boolean): the whitespace-delimited words. -/
def splitWsWords (l : List Char) : List String :=
  splitWsWordsAux [] l

/-! ### JavaScript values -/

/-- A JavaScript number as an exact fraction: numerator over a positive
denominator.  The values flowing through this code never hold NaN (JSON has
no NaN and the unstructured extractor produces clamped integers); NaN arises
only at Number(...) coercion points, which return Option JsNum. -/
structure JsNum where
  num : Int
  den : Nat
deriving DecidableEq

/-- JavaScript runtime values reaching the normalization code. -/
inductive JVal where
  | str (s : String)
  | num (q : JsNum)
  | bool (b : Bool)
  | null
  | undef
  | arr (elems : List JVal)
  | obj (fields : List (String × JVal))

/-- JavaScript truthiness of the modelled values. -/
def truthy : JVal → Bool
  | .str s => s ≠ ""
  | .num q => q.num ≠ 0
  | .bool b => b
  | .null => false
  | .undef => false
  | .arr _ => true
  | .obj _ => true

/-- Property read v[k] modelled for the own properties the code consults:
for objects it is the (last-written) field, for every other value it is
undefined. -/
def jvGet (v : JVal) (k : String) : JVal :=
  match v with
  | .obj fields =>
    match fields.reverse.find? (fun p => p.1 == k) with
    | some p => p.2
    | none => .undef
  | _ => .undef

def isStr : JVal → Bool
  | .str _ => true
  | _ => false

def isNum : JVal → Bool
  | .num _ => true
  | _ => false

def isNullish : JVal → Bool
  | .null => true
  | .undef => true
  | _ => false

/-- The digits of a natural number, most significant first. -/
def natDigits (fuel n : Nat) : List Char :=
  match fuel with
  | 0 => []
  | f + 1 =>
    if n < 10 then [Char.ofNat (n + '0'.toNat)]
    else natDigits f (n / 10) ++ [Char.ofNat (n % 10 + '0'.toNat)]

def natToString (n : Nat) : String :=
  String.mk (natDigits (n + 1) n)

/-- Decimal expansion of num/den to at most fuel fractional digits.  For the
terminating fractions produced in this development this is exact; JavaScript
prints the shortest round-tripping decimal of its binary floats, which this
development never needs beyond terminating expansions. -/
def fracDigits (fuel num den : Nat) : List Char :=
  match fuel with
  | 0 => []
  | f + 1 =>
    if num = 0 then []
    else Char.ofNat ((num * 10 / den) % 10 + '0'.toNat) :: fracDigits f (num * 10 % den) den

mutual

/-- String(v): the conversions the normalization code can trigger. -/
def jsToString : JVal → String
  | .str s => s
  | .num q =>
    let intPart := natToString (q.num.natAbs / q.den)
    let fr := fracDigits 32 (q.num.natAbs % q.den) q.den
    (if q.num < 0 then "-" else "") ++ intPart ++
      (if fr.isEmpty then "" else "." ++ String.mk fr)
  | .bool b => if b then "true" else "false"
  | .null => "null"
  | .undef => "undefined"
  | .arr elems =>
    -- Array.prototype.toString = join(","): null and undefined elements
    -- become empty strings.
    String.mk (joinWith [','] (jsToStringElems elems))
  | .obj _ => "[object Object]"

/-- The element strings of Array.prototype.join. -/
def jsToStringElems : List JVal → List (List Char)
  | [] => []
  | v :: vs => (if isNullish v then [] else (jsToString v).toList) :: jsToStringElems vs

end

/-! ### JSON.parse -/

/-- The whitespace JSON.parse skips between tokens. -/
def skipJsonWs (cs : List Char) : List Char :=
  cs.dropWhile (fun c => c == ' ' || c == '\t' || c == '\n' || c == '\r')

def hexVal (c : Char) : Option Nat :=
  let n := c.toNat
  if 48 ≤ n && n ≤ 57 then some (n - 48)
  else if 97 ≤ n && n ≤ 102 then some (n - 87)
  else if 65 ≤ n && n ≤ 70 then some (n - 55)
  else none

/-- Body of a JSON string after the opening quote; returns the decoded
characters and the remainder after the closing quote.  Raw control
characters are rejected, as JSON.parse does. -/
def parseJsonStringBody : Nat → List Char → Option (List Char × List Char)
  | 0, _ => none
  | _, [] => none
  | fuel + 1, c :: rest =>
    if c == '"' then some ([], rest)
    else if c == '\\' then
      match rest with
      | [] => none
      | e :: rest2 =>
        let esc : Option (Char × List Char) :=
          if e == '"' then some ('"', rest2)
          else if e == '\\' then some ('\\', rest2)
          else if e == '/' then some ('/', rest2)
          else if e == 'b' then some ('\x08', rest2)
          else if e == 'f' then some ('\x0c', rest2)
          else if e == 'n' then some ('\n', rest2)
          else if e == 'r' then some ('\r', rest2)
          else if e == 't' then some ('\t', rest2)
          else if e == 'u' then
            match rest2 with
            | h1 :: h2 :: h3 :: h4 :: rest3 =>
              match hexVal h1, hexVal h2, hexVal h3, hexVal h4 with
              | some a, some b, some c2, some d =>
                some (Char.ofNat (((a * 16 + b) * 16 + c2) * 16 + d), rest3)
              | _, _, _, _ => none
            | _ => none
          else none
        match esc with
        | some (ch, r) =>
          match parseJsonStringBody fuel r with
          | some (tail, rem) => some (ch :: tail, rem)
          | none => none
        | none => none
    else if c.toNat < 0x20 then none
    else
      match parseJsonStringBody fuel rest with
      | some (tail, rem) => some (c :: tail, rem)
      | none => none

/-- JSON number grammar: -? (0 | [1-9][0-9]*) (. [0-9]+)? ([eE][+-]?[0-9]+)? -/
def parseJsonNumber (cs0 : List Char) : Option (JsNum × List Char) :=
  let neg := cs0.head? == some '-'
  let cs1 := if neg then cs0.tail else cs0
  let intDigits := cs1.takeWhile isDigitChar
  let rest1 := cs1.dropWhile isDigitChar
  if intDigits.isEmpty then none
  else if intDigits.length > 1 && intDigits.head? == some '0' then none
  else
    let intVal : Nat := intDigits.foldl (fun a d => a * 10 + digitVal d) 0
    let fracStep : Option (Nat × Nat × List Char) :=
      match rest1 with
      | '.' :: r =>
        let fd := r.takeWhile isDigitChar
        if fd.isEmpty then none
        else some (fd.foldl (fun a d => a * 10 + digitVal d) 0, fd.length, r.dropWhile isDigitChar)
      | _ => some (0, 0, rest1)
    match fracStep with
    | none => none
    | some (fracVal, fracLen, rest2) =>
      let expStep : Option (Bool × Nat × List Char) :=
        match rest2 with
        | e :: r =>
          if e == 'e' || e == 'E' then
            let signedTail : Bool × List Char :=
              match r with
              | '-' :: rr => (true, rr)
              | '+' :: rr => (false, rr)
              | _ => (false, r)
            let ed := signedTail.2.takeWhile isDigitChar
            if ed.isEmpty then none
            else some (signedTail.1, ed.foldl (fun a d => a * 10 + digitVal d) 0,
                       signedTail.2.dropWhile isDigitChar)
          else some (false, 0, rest2)
        | [] => some (false, 0, rest2)
      match expStep with
      | none => none
      | some (eneg, expVal, rest3) =>
        let base : JsNum := ⟨(intVal * 10 ^ fracLen + fracVal : Nat), 10 ^ fracLen⟩
        let scaled : JsNum :=
          if eneg then ⟨base.num, base.den * 10 ^ expVal⟩
          else ⟨base.num * (10 ^ expVal : Nat), base.den⟩
        some ((if neg then ⟨-scaled.num, scaled.den⟩ else scaled), rest3)

mutual

/-- JSON.parse value grammar, fuel-bounded; the fuel passed at top level
always suffices because every recursion step first consumes a character. -/
def parseJsonValue : Nat → List Char → Option (JVal × List Char)
  | 0, _ => none
  | fuel + 1, cs =>
    match skipJsonWs cs with
    | '{' :: rest => parseJsonObject fuel (skipJsonWs rest) []
    | '[' :: rest => parseJsonArray fuel (skipJsonWs rest) []
    | '"' :: rest =>
      match parseJsonStringBody (rest.length + 1) rest with
      | some (chars, rem) => some (.str (String.mk chars), rem)
      | none => none
    | rest =>
      if ("true".toList).isPrefixOf rest then some (.bool true, rest.drop 4)
      else if ("false".toList).isPrefixOf rest then some (.bool false, rest.drop 5)
      else if ("null".toList).isPrefixOf rest then some (.null, rest.drop 4)
      else
        match parseJsonNumber rest with
        | some (q, rem) => some (.num q, rem)
        | none => none

/-- Object members after the opening brace, leading whitespace consumed. -/
def parseJsonObject : Nat → List Char → List (String × JVal) → Option (JVal × List Char)
  | 0, _, _ => none
  | fuel + 1, cs, acc =>
    match cs with
    | '}' :: rest => if acc.isEmpty then some (.obj [], rest) else none
    | '"' :: rest =>
      match parseJsonStringBody (rest.length + 1) rest with
      | some (keyChars, rem) =>
        match skipJsonWs rem with
        | ':' :: rem2 =>
          match parseJsonValue fuel rem2 with
          | some (v, rem3) =>
            let acc2 := acc ++ [(String.mk keyChars, v)]
            match skipJsonWs rem3 with
            | ',' :: rem4 => parseJsonObject fuel (skipJsonWs rem4) acc2
            | '}' :: rem4 => some (.obj acc2, rem4)
            | _ => none
          | none => none
        | _ => none
      | none => none
    | _ => none

/-- Array elements after the opening bracket, leading whitespace consumed. -/
def parseJsonArray : Nat → List Char → List JVal → Option (JVal × List Char)
  | 0, _, _ => none
  | fuel + 1, cs, acc =>
    match cs with
    | ']' :: rest => if acc.isEmpty then some (.arr [], rest) else none
    | _ =>
      match parseJsonValue fuel cs with
      | some (v, rem) =>
        match skipJsonWs rem with
        | ',' :: rem2 => parseJsonArray fuel (skipJsonWs rem2) (acc ++ [v])
        | ']' :: rem2 => some (.arr (acc ++ [v]), rem2)
        | _ => none
      | none => none

end

/-- JSON.parse: some value on success; none models the thrown SyntaxError. -/
def jsonParse (s : String) : Option JVal :=
  match parseJsonValue (s.length + 1) s.toList with
  | some (v, rest) => if (skipJsonWs rest).isEmpty then some v else none
  | none => none

/-! ### ai.js parsing utilities -/

/-- src/src/ai.js lines 149-156: strip a full Markdown code fence.  The two
replaces implement /^```[a-zA-Z]*\n?/ and /```$/ on a string already known
to start and end with the fence markers. -/
def stripCodeFences (s : String) : String :=
  let t := (jsTrim s).toList
  let ticks := ['`', '`', '`']
  if ticks.isPrefixOf t && ticks.isPrefixOf t.reverse then
    let l1 := (t.drop 3).dropWhile isAsciiAlpha
    let l2 := match l1 with
      | '\n' :: r => r
      | _ => l1
    let l3 := if ticks.isPrefixOf l2.reverse then l2.take (l2.length - 3) else l2
    jsTrim (String.mk l3)
  else String.mk t

/-- One segment of an array-shaped content value (ai.js lines 162-171):
strings pass through, object-typed segments contribute their text or
content field when it is a string, everything else contributes "". -/
def segToString (seg : JVal) : String :=
  match seg with
  | .str s => s
  | .obj _ | .arr _ =>
    match jvGet seg ("text") with
    | .str t => t
    | _ =>
      match jvGet seg ("content") with
      | .str c => c
      | _ => ""
  | _ => ""

/-- The string branch of tryParseJsonFromContent (ai.js lines 188-201):
strip fences, try strict JSON, then the first-brace/last-brace substring. -/
def tryParseStr (s : String) : JVal :=
  let text := stripCodeFences s
  match jsonParse text with
  | some v => v
  | none =>
    let cs := text.toList
    let firstBrace : Option Nat := cs.findIdx? (fun c => c == '{')
    let lastBrace : Option Nat :=
      (cs.reverse.findIdx? (fun c => c == '}')).map (fun j => cs.length - 1 - j)
    match firstBrace, lastBrace with
    | some f, some l =>
      if f < l then
        match jsonParse (String.mk ((cs.drop f).take (l + 1 - f))) with
        | some v => v
        | none => .null
      else .null
    | _, _ => .null

/-- ai.js lines 159-202.  Array content is joined segment-wise and re-tried;
object content is unwrapped through a string content or text field, or
returned as-is; non-strings yield null. -/
def tryParseJsonFromContent (content : JVal) : JVal :=
  match content with
  | .arr segs => tryParseStr (String.mk (joinWith [] ((segs.map segToString).map String.toList)))
  | .obj _ =>
    match jvGet content ("content") with
    | .str inner => tryParseStr inner
    | _ =>
      match jvGet content ("text") with
      | .str inner => tryParseStr inner
      | _ => content
  | .str s => tryParseStr s
  | _ => .null

/-- Math.round: round half toward positive infinity, that is the floor of
q + 1/2, computed as a single integer floor division. -/
def jsRound (q : JsNum) : ℤ :=
  Int.fdiv (2 * q.num + q.den) (2 * q.den)

/-- Math.max of two integers. -/
def jsMax (a b : ℤ) : ℤ :=
  if a ≤ b then b else a

/-- Math.min of two integers. -/
def jsMin (a b : ℤ) : ℤ :=
  if a ≤ b then a else b

/-- ai.js lines 204-207 for an actual number. -/
def clampScoreQ (q : JsNum) : ℤ :=
  jsMax 0 (jsMin 10 (jsRound q))

/-- ai.js lines 204-207; none models NaN, which maps to the neutral 5. -/
def clampScore : Option JsNum → ℤ
  | none => 5
  | some q => clampScoreQ q

/-- Number(s) for a string: trimmed; empty gives 0; a decimal literal with
optional sign, fraction and exponent gives its value; anything else gives
NaN (none).  The hexadecimal and Infinity forms JavaScript additionally
accepts never occur in this development. -/
def jsStringToNumber (s : String) : Option JsNum :=
  let t := jsTrimL s.toList
  if t.isEmpty then some ⟨0, 1⟩
  else
    let signedTail : Bool × List Char :=
      match t with
      | '-' :: r => (true, r)
      | '+' :: r => (false, r)
      | _ => (false, t)
    let neg := signedTail.1
    let cs1 := signedTail.2
    let intD := cs1.takeWhile isDigitChar
    let rest1 := cs1.dropWhile isDigitChar
    let fracSplit : List Char × List Char :=
      match rest1 with
      | '.' :: r => (r.takeWhile isDigitChar, r.dropWhile isDigitChar)
      | _ => ([], rest1)
    let fracD := fracSplit.1
    let rest2 := fracSplit.2
    if intD.isEmpty && fracD.isEmpty && rest1.head? == some '.' then none
    else if intD.isEmpty && rest1.head? != some '.' then none
    else
      let expStep : Option (Bool × Nat × List Char) :=
        match rest2 with
        | c :: r =>
          if c == 'e' || c == 'E' then
            let signedExp : Bool × List Char :=
              match r with
              | '-' :: rr => (true, rr)
              | '+' :: rr => (false, rr)
              | _ => (false, r)
            let ed := signedExp.2.takeWhile isDigitChar
            if ed.isEmpty then none
            else some (signedExp.1, ed.foldl (fun a d => a * 10 + digitVal d) 0,
                       signedExp.2.dropWhile isDigitChar)
          else some (false, 0, rest2)
        | [] => some (false, 0, rest2)
      match expStep with
      | none => none
      | some (eneg, e, rest3) =>
        if !rest3.isEmpty then none
        else
          let iv : Nat := intD.foldl (fun a d => a * 10 + digitVal d) 0
          let fv : Nat := fracD.foldl (fun a d => a * 10 + digitVal d) 0
          let base : JsNum := ⟨(iv * 10 ^ fracD.length + fv : Nat), 10 ^ fracD.length⟩
          let scaled : JsNum :=
            if eneg then ⟨base.num, base.den * 10 ^ e⟩
            else ⟨base.num * (10 ^ e : Nat), base.den⟩
          some (if neg then ⟨-scaled.num, scaled.den⟩ else scaled)

/-- Number(v) at the coercion points of the norm block. -/
def jsNumber : JVal → Option JsNum
  | .num q => some q
  | .str s => jsStringToNumber s
  | .bool b => some ⟨if b then 1 else 0, 1⟩
  | .null => some ⟨0, 1⟩
  | .undef => none
  | .arr elems => jsStringToNumber (jsToString (.arr elems))
  | .obj _ => none

/-! ### extractFromUnstructured (ai.js lines 209-281) -/

def dropPre (pre l : List Char) : Option (List Char) :=
  if pre.isPrefixOf l then some (l.drop pre.length) else none

/-- \s* [:\-]? \s* (the glue between a score keyword and its digits). -/
def skipPunct (l : List Char) : List Char :=
  let a := l.dropWhile reWs
  match a with
  | c :: r => if c == ':' || c == '-' then r.dropWhile reWs else a
  | [] => a

/-- The mandatory capture (\d{1,2}): greedily one or two digits. -/
def captureDigits : List Char → Option Nat
  | [] => none
  | c :: rest =>
    if !isDigitChar c then none
    else
      match rest with
      | d :: _ => if isDigitChar d then some (digitVal c * 10 + digitVal d) else some (digitVal c)
      | [] => some (digitVal c)

/-- Pattern /\bprivacy\s*(?:abuse\s*)?score\b\s*[:\-]?\s*(\d{1,2})(?:\s*\/\s*10)?/i
anchored at the scan position (the leading \b is checked by the scanner). -/
def p1At (l : List Char) : Option Nat := do
  let r1 ← dropPre ("privacy".toList) l
  let r2 := r1.dropWhile reWs
  let r3 ←
    match dropPre ("abuse".toList) r2 with
    | some ra =>
      match dropPre ("score".toList) (ra.dropWhile reWs) with
      | some rs => some rs
      | none => dropPre ("score".toList) r2
    | none => dropPre ("score".toList) r2
  match r3.head? with
  | some c => if wordChar c then none else captureDigits (skipPunct r3)
  | none => captureDigits (skipPunct r3)

/-- Pattern /\bscore\b\s*[:\-]?\s*(\d{1,2})(?:\s*\/\s*10)?/i anchored at the
scan position. -/
def p2At (l : List Char) : Option Nat := do
  let r1 ← dropPre ("score".toList) l
  match r1.head? with
  | some c => if wordChar c then none else captureDigits (skipPunct r1)
  | none => captureDigits (skipPunct r1)

/-- Continuation shared by the puntuación and puntaje patterns: from the
position right after the keyword, \s*(?:de\s*privacidad)?\b\s*[:\-]?\s*
(\d{1,2}), with the backtracking the regex engine would perform. -/
def esTailAt (afterKw : List Char) : Option Nat :=
  let rW := afterKw.dropWhile reWs
  let viaGroup : Option Nat :=
    match dropPre ("de".toList) rW with
    | some rd =>
      match dropPre ("privacidad".toList) (rd.dropWhile reWs) with
      | some rp =>
        match rp.head? with
        | some c => if wordChar c then none else captureDigits (skipPunct rp)
        | none => captureDigits (skipPunct rp)
      | none => none
    | none => none
  match viaGroup with
  | some v => some v
  | none =>
    let boundaryOk :=
      decide (rW.length < afterKw.length) ||
      (match afterKw.head? with
       | some c => !wordChar c
       | none => true)
    if boundaryOk then captureDigits (skipPunct afterKw) else none

/-- Pattern /\bpuntuaci[oó]n\s*(?:de\s*privacidad)?\b\s*[:\-]?\s*(\d{1,2})
(?:\s*\/\s*10)?/i anchored at the scan position. -/
def p3At (l : List Char) : Option Nat := do
  let r1 ← dropPre ("puntuaci".toList) l
  match r1 with
  | c :: 'n' :: rest =>
    if c == 'o' || c == 'ó' || c == 'Ó' then esTailAt rest else none
  | _ => none

/-- Pattern /\bpuntaje\s*(?:de\s*privacidad)?\b\s*[:\-]?\s*(\d{1,2})
(?:\s*\/\s*10)?/i anchored at the scan position. -/
def p4At (l : List Char) : Option Nat := do
  let r1 ← dropPre ("puntaje".toList) l
  esTailAt r1

/-- The \s*\/\s*10\b tail of the bare n/10 pattern. -/
def p5Rest (l : List Char) : Bool :=
  match l.dropWhile reWs with
  | '/' :: r =>
    match dropPre ("10".toList) (r.dropWhile reWs) with
    | some rest =>
      match rest.head? with
      | some c => !wordChar c
      | none => true
    | none => false
  | _ => false

/-- Pattern /\b(\d{1,2})\s*\/\s*10\b/ anchored at the scan position. -/
def p5At : List Char → Option Nat
  | [] => none
  | c :: rest =>
    if !isDigitChar c then none
    else
      match rest with
      | d :: rest2 =>
        if isDigitChar d then
          if p5Rest rest2 then some (digitVal c * 10 + digitVal d)
          else if p5Rest rest then some (digitVal c)
          else none
        else if p5Rest rest then some (digitVal c) else none
      | [] => none

/-- Scan left to right, trying the anchored matcher at every position whose
left context satisfies the pattern's leading \b. -/
def scanB (f : List Char → Option Nat) : Option Char → List Char → Option Nat
  | _, [] => none
  | prev, c :: rest =>
    let bOK := match prev with
      | none => true
      | some p => !wordChar p
    match (if bOK then f (c :: rest) else none) with
    | some v => some v
    | none => scanB f (some c) rest

/-- ai.js lines 214-236: try the five score patterns in order on one trimmed
line; the /i flag is modelled by ASCII-lower-casing the line first. -/
def scoreLineMatch (line : String) : Option Nat :=
  let low := line.toList.map asciiLower
  match scanB p1At none low with
  | some v => some v
  | none =>
    match scanB p2At none low with
    | some v => some v
    | none =>
      match scanB p3At none low with
      | some v => some v
      | none =>
        match scanB p4At none low with
        | some v => some v
        | none => scanB p5At none low

/-- First line (index and raw captured value) on which a score pattern
matches; ai.js lines 221-237. -/
def findScoreAux : List String → Nat → Option (Nat × Nat)
  | [], _ => none
  | l :: rest, i =>
    match scoreLineMatch l with
    | some n => some (i, n)
    | none => findScoreAux rest (i + 1)

/-- line.replace(/^[^:\-]+[:\-]?\s*/, "") of ai.js line 242. -/
def replaceLeadColon (s : String) : String :=
  match s.toList with
  | [] => s
  | c :: _ =>
    if c == ':' || c == '-' then s
    else
      let r1 := s.toList.dropWhile (fun d => !(d == ':' || d == '-'))
      match r1 with
      | _ :: r => String.mk (r.dropWhile reWs)
      | [] => ""

/-- after.replace(/^(\d{1,2})(?:\s*\/\s*10)?\s*/, "") of ai.js line 243. -/
def stripLeadScoreRef (s : String) : String :=
  match s.toList with
  | [] => s
  | c :: rest =>
    if !isDigitChar c then s
    else
      let afterDigits :=
        match rest with
        | d :: r2 => if isDigitChar d then r2 else rest
        | [] => []
      let afterGroup :=
        match afterDigits.dropWhile reWs with
        | '/' :: r =>
          match dropPre ("10".toList) (r.dropWhile reWs) with
          | some rr => rr
          | none => afterDigits
        | _ => afterDigits
      String.mk (afterGroup.dropWhile reWs)

/-- The test /[a-zA-ZÀ-ſ]/ of ai.js line 244. -/
def hasLetterLatin (s : String) : Bool :=
  s.toList.any (fun c => isAsciiAlpha c || (0xC0 ≤ c.toNat && c.toNat ≤ 0x17F))

/-- Whether pat occurs as a contiguous run inside l. -/
def listInfixOf (pat : List Char) : List Char → Bool
  | [] => pat.isEmpty
  | c :: rest => pat.isPrefixOf (c :: rest) || listInfixOf pat rest

/-- The test /(explana|explica|porque|motivo|reason|because|justif)/i of
ai.js line 248. -/
def hasExplWord (s : String) : Bool :=
  let low := s.toList.map asciiLower
  [("explana" : String), ("explica"), ("porque"), ("motivo"), ("reason"), ("because"),
    ("justif")].any (fun w => listInfixOf w.toList low)

/-- The test /^(summary|resumen)\b[:\-]?/i of ai.js line 255. -/
def isSummaryHeading (s : String) : Bool :=
  let low := s.toList.map asciiLower
  let kw := fun (w : String) =>
    w.toList.isPrefixOf low &&
      (match (low.drop w.length).head? with
       | some c => !wordChar c
       | none => true)
  kw ("summary") || kw ("resumen")

/-- The three section-break tests of ai.js line 261: /^#{1,6}\s+/,
/^(score|puntuaci[oó]n|puntaje)\b/i and /^(rights|derechos)\b/i. -/
def isSectionBreak (s : String) : Bool :=
  let l := s.toList
  let low := l.map asciiLower
  let hashes := l.takeWhile (fun c => c == '#')
  let isHashHeading :=
    decide (1 ≤ hashes.length) && decide (hashes.length ≤ 6) &&
      (match (l.drop hashes.length).head? with
       | some c => reWs c
       | none => false)
  let kwB := fun (w : String) =>
    w.toList.isPrefixOf low &&
      (match (low.drop w.length).head? with
       | some c => !wordChar c
       | none => true)
  let puntuacionB :=
    ("puntuaci".toList).isPrefixOf low &&
      (match low.drop 8 with
       | c :: 'n' :: r =>
         (c == 'o' || c == 'ó' || c == 'Ó') &&
           (match r.head? with
            | some c2 => !wordChar c2
            | none => true)
       | _ => false)
  isHashHeading || kwB ("score") || puntuacionB || kwB ("puntaje") || kwB ("rights") ||
    kwB ("derechos")

/-- ai.js lines 210-211: fence-stripped text split on /\r?\n/, trimmed,
empty lines removed. -/
def unstructuredLines (text : String) : List String :=
  ((splitLinesCRLF text).map jsTrim).filter (fun l => l ≠ "")

/-- ai.js lines 209-281: last-resort extraction from free-form text. -/
def extractFromUnstructured (content : JVal) : JVal :=
  let text := stripCodeFences (match content with | .str s => s | _ => "")
  let lines := unstructuredLines text
  let found := findScoreAux lines 0
  let detectedScore : Option Int := found.map (fun p => clampScoreQ ⟨(p.2 : Nat), 1⟩)
  let scoreLineIndex : Option Nat := found.map (fun p => p.1)
  let explanation : String :=
    match scoreLineIndex with
    | some i =>
      let after := replaceLeadColon (lines.getD i "")
      let afterNumber := jsTrim (stripLeadScoreRef after)
      if afterNumber ≠ "" && hasLetterLatin afterNumber then afterNumber
      else
        match lines.get? (i + 1) with
        | some next => if hasExplWord next then next else ""
        | none => ""
    | none => ""
  let headingIdx := lines.findIdx? isSummaryHeading
  let summaryText0 :=
    match headingIdx with
    | some h => jsTrim (joinNl ((lines.drop (h + 1)).takeWhile (fun l => !isSectionBreak l)))
    | none => ""
  let summaryText :=
    if summaryText0 ≠ "" then summaryText0
    else
      let kept :=
        match scoreLineIndex with
        | some i => (lines.enum.filter (fun p => p.1 ≠ i)).map (fun p => p.2)
        | none => lines
      let body := jsTrim (joinNl kept)
      if body ≠ "" then body else text
  let finalScore : Int :=
    match detectedScore with
    | some v => v
    | none => 5
  let finalExplanation :=
    if explanation ≠ "" then explanation
    else if detectedScore.isSome then "Detected score from response."
    else "No explicit score provided; using neutral score."
  .obj [("privacy_score", .num ⟨finalScore, 1⟩),
        ("score_explanation", .str finalExplanation),
        ("summary", .str summaryText)]

/-! ### The norm block and final validation of summarizePolicy -/

/-- The result record { privacy_score, score_explanation, summary }. -/
structure SRecord where
  privacy_score : Int
  score_explanation : String
  summary : String
deriving DecidableEq

deriving instance DecidableEq for Except

/-- JavaScript a || b. -/
def jsOr (a b : JVal) : JVal :=
  if truthy a then a else b

/-- JavaScript v ?? "" as it appears in the norm block. -/
def jsCoalesceStr (v : JVal) : JVal :=
  if isNullish v then .str "" else v

/-- s.replace(/\.$/, "") of ai.js line 328. -/
def stripOneFinalDot (s : String) : String :=
  match s.toList.getLast? with
  | some '.' => String.mk s.toList.dropLast
  | _ => s

/-- ai.js lines 324-328: trim, strip the trailing run matched by /[\.\s]+$/,
cap at the first 8 whitespace-delimited words, strip one period the cap may
have exposed. -/
def normalizeExplanation (s : String) : String :=
  let e1 := jsTrim s
  let e2 := String.mk (dropTrailWhile (fun c => c == '.' || reWs c) e1.toList)
  let words := splitWsWords e2.toList
  let e3 := if words.length > 8 then joinSpace (words.take 8) else e2
  stripOneFinalDot e3

/-- The explanation normalization exactly as the specification words it:
trim, strip trailing periods and whitespace, truncate to the first 8
whitespace-delimited words.  Stated for comparison with the source's
normalizeExplanation. -/
def specExplanationNorm (s : String) : String :=
  let t := String.mk (dropTrailWhile (fun c => c == '.' || reWs c) (jsTrimL s.toList))
  let words := splitWsWords t.toList
  if words.length > 8 then joinSpace (words.take 8) else t

/-- ai.js lines 283-308: content parsing with the alt-field fallback, the
unstructured fallback, and the two rewrapping steps at the top of the norm
IIFE.  rawContent is data.choices[0].message.content; alt is the
reasoning_content / tool_content / content_text chain of lines 286-290
already folded to one value (null when absent, the common case). -/
def parsedValue (rawContent alt : JVal) : JVal :=
  let parsedA := tryParseJsonFromContent rawContent
  let parsedB := if !truthy parsedA && truthy alt then tryParseJsonFromContent alt else parsedA
  let parsedC := if !truthy parsedB then extractFromUnstructured rawContent else parsedB
  let parsedD :=
    match parsedC with
    | .obj _ =>
      match jvGet parsedC ("content") with
      | .str inner =>
        if inner ≠ "" then
          let innerV := tryParseJsonFromContent (.str inner)
          if truthy innerV then innerV else parsedC
        else parsedC
      | _ => parsedC
    | _ => parsedC
  match parsedD with
  | .arr _ =>
    let t := tryParseJsonFromContent parsedD
    if truthy t then t else extractFromUnstructured (.str (jsToString parsedD))
  | _ => parsedD

/-- ai.js lines 310-321: the score pipeline of the norm IIFE, ending in
clampScore(Number(score)). -/
def normScore (parsedE : JVal) : Int :=
  let score0 := jvGet parsedE ("privacy_score")
  let score1 :=
    match score0 with
    | .str s =>
      match jsStringToNumber s with
      | some n => JVal.num n
      | none => score0
    | _ => score0
  let score2 :=
    if !isNum score1 then
      let nested := tryParseJsonFromContent
        (jsOr (jvGet parsedE ("summary")) (jsOr (jvGet parsedE ("text")) (.str "")))
      match jvGet nested ("privacy_score") with
      | .num m => if truthy nested then JVal.num m else score1
      | _ => score1
    else score1
  clampScore (jsNumber score2)

/-- ai.js lines 298-331: the record the norm IIFE returns. -/
def normBlock (rawContent alt : JVal) : SRecord :=
  let parsedE := parsedValue rawContent alt
  ⟨normScore parsedE,
   normalizeExplanation (jsToString (jsCoalesceStr (jvGet parsedE ("score_explanation")))),
   jsToString (jsCoalesceStr (jvGet parsedE ("summary")))⟩

/-- ai.js lines 283-343: everything after the HTTP layer of summarizePolicy.
The error branch models the MalformedResponse throw of lines 339-341; the
typeof-string checks of lines 333-338 have no failing input because the
String(...) coercions of lines 323-329 always produce strings, which the
String-typed record fields mirror. -/
def summarizePolicyNorm (rawContent alt : JVal) : Except String SRecord :=
  let norm := normBlock rawContent alt
  if norm.privacy_score < 0 || norm.privacy_score > 10 then
    .error ("privacy_score out of range (must be 0-10)")
  else
    .ok norm

/-! ### The distiller (part_004 lines 103-116) -/

/-- First replace of normalizeWhitespace: /[\t\f\r ]+/g → " ".  Each maximal
run of horizontal whitespace becomes one space. -/
def collapseHws : List Char → List Char
  | [] => []
  | c :: rest =>
    if hwsChar c then ' ' :: collapseHws (rest.dropWhile hwsChar)
    else c :: collapseHws rest
termination_by l => l.length
decreasing_by
  · simp
    exact Nat.lt_succ_of_le (List.Sublist.length_le (List.dropWhile_sublist _))
  · simp

/-- Second replace of normalizeWhitespace: /\s*\n\s*/g → "\n".  Matches of
this pattern lie inside maximal whitespace runs, a run containing a newline
is consumed whole by the leftmost greedy match, so each such run becomes one
newline while newline-free runs stay unchanged. -/
def collapseNl : List Char → List Char
  | [] => []
  | c :: rest =>
    if reWs c then
      let run := c :: rest.takeWhile reWs
      let rest2 := rest.dropWhile reWs
      (if run.contains ('\n') then ['\n'] else run) ++ collapseNl rest2
    else c :: collapseNl rest
termination_by l => l.length
decreasing_by
  · simp
    exact Nat.lt_succ_of_le (List.Sublist.length_le (List.dropWhile_sublist _))
  · simp

/-- part_004 lines 114-116. -/
def normalizeWhitespace (s : String) : String :=
  String.mk (jsTrimL (collapseNl (collapseHws s.toList)))

/-- part_004 lines 103-112.  DOMParser availability and the body textContent
it would produce are environment inputs, passed as parameters: when the
parser is unavailable the raw input is returned unchanged; bodyTextOf models
doc.body.textContent || "". -/
def extractBodyTextFromHTML (domAvailable : Bool) (bodyTextOf : String → String)
    (html : String) : String :=
  if html = "" then ""
  else if !domAvailable then html
  else normalizeWhitespace (bodyTextOf html)

/-- No two adjacent characters both satisfying p. -/
def noAdjBy (p : Char → Bool) : List Char → Bool
  | [] => true
  | [_] => true
  | x :: y :: r => !(p x && p y) && noAdjBy p (y :: r)

/-- No two adjacent whitespace characters.  This is the spec's reading of
"horizontal whitespace runs collapsed"; the distiller does not establish
it (the replace classes skip \v, the no-break space and the other Unicode
whitespace), which the C7 counterexample exhibits. -/
def noAdjWs (l : List Char) : Bool :=
  noAdjBy reWs l

/-- No two adjacent characters of the collapsed class [\t\f\r ]. -/
def noAdjHws (l : List Char) : Bool :=
  noAdjBy hwsChar l

/-- Every adjacent pair of characters satisfies the binary condition r. -/
def adjOkBy (r : Char → Char → Bool) : List Char → Bool
  | [] => true
  | [_] => true
  | x :: y :: t => r x y && adjOkBy r (y :: t)

/-- Adjacent pair allowed by the newline-isolation clause: the two
characters are not both whitespace with one of them a newline. -/
def nlPairOk (x y : Char) : Bool :=
  !(reWs x && reWs y && (x == '\n' || y == '\n'))

/-- Every newline in the list has non-whitespace neighbours; in particular
no two adjacent newlines. -/
def nlSep (l : List Char) : Bool :=
  adjOkBy nlPairOk l

/-- The DistilledText invariant established by normalizeWhitespace: no
leading or trailing whitespace (the full JavaScript \s set, stripped by
the final trim), every character of the collapsed class [\t\f\r ] a plain
space with no two of them adjacent (each run of that class becomes exactly
one space), and every newline isolated among whitespace (so line breaks
are never duplicated).  Whitespace outside the collapsed class — the
vertical tab, the no-break space and the other Unicode \s characters —
passes through both replaces uncollapsed and is constrained only by the
trim and newline clauses. -/
def wsInvariant (l : List Char) : Bool :=
  (match l.head? with
   | some c => !reWs c
   | none => true) &&
  (match l.getLast? with
   | some c => !reWs c
   | none => true) &&
  noAdjHws l &&
  l.all (fun c => !hwsChar c || c == ' ') &&
  nlSep l

def wsInvariantStr (s : String) : Bool :=
  wsInvariant s.toList

/-! ### hashText (part_004 lines 85-91): SHA-256 of the UTF-8 bytes, lowercase hex -/

/-- TextEncoder().encode: the UTF-8 bytes of one character. -/
def utf8EncodeChar (c : Char) : List Nat :=
  let n := c.toNat
  if n < 0x80 then [n]
  else if n < 0x800 then
    [0xC0 ||| (n >>> 6), 0x80 ||| (n &&& 0x3F)]
  else if n < 0x10000 then
    [0xE0 ||| (n >>> 12), 0x80 ||| ((n >>> 6) &&& 0x3F), 0x80 ||| (n &&& 0x3F)]
  else
    [0xF0 ||| (n >>> 18), 0x80 ||| ((n >>> 12) &&& 0x3F), 0x80 ||| ((n >>> 6) &&& 0x3F),
     0x80 ||| (n &&& 0x3F)]

def utf8Bytes (s : String) : List Nat :=
  s.toList.flatMap utf8EncodeChar

def w32 : Nat := 4294967296

def add32 (a b : Nat) : Nat := (a + b) % w32

def rotr32 (n x : Nat) : Nat := ((x >>> n) ||| (x <<< (32 - n))) % w32

def xor3 (a b c : Nat) : Nat := (a ^^^ b) ^^^ c

def bigSigma0 (x : Nat) : Nat := xor3 (rotr32 2 x) (rotr32 13 x) (rotr32 22 x)

def bigSigma1 (x : Nat) : Nat := xor3 (rotr32 6 x) (rotr32 11 x) (rotr32 25 x)

def smallSigma0 (x : Nat) : Nat := xor3 (rotr32 7 x) (rotr32 18 x) (x >>> 3)

def smallSigma1 (x : Nat) : Nat := xor3 (rotr32 17 x) (rotr32 19 x) (x >>> 10)

def chF (x y z : Nat) : Nat := (x &&& y) ^^^ ((x ^^^ (w32 - 1)) &&& z)

def majF (x y z : Nat) : Nat := xor3 (x &&& y) (x &&& z) (y &&& z)

def shaK : List Nat :=
  [1116352408, 1899447441, 3049323471, 3921009573, 961987163,
   1508970993, 2453635748, 2870763221, 3624381080, 310598401,
   607225278, 1426881987, 1925078388, 2162078206, 2614888103,
   3248222580, 3835390401, 4022224774, 264347078, 604807628,
   770255983, 1249150122, 1555081692, 1996064986, 2554220882,
   2821834349, 2952996808, 3210313671, 3336571891, 3584528711,
   113926993, 338241895, 666307205, 773529912, 1294757372,
   1396182291, 1695183700, 1986661051, 2177026350, 2456956037,
   2730485921, 2820302411, 3259730800, 3345764771, 3516065817,
   3600352804, 4094571909, 275423344, 430227734, 506948616,
   659060556, 883997877, 958139571, 1322822218, 1537002063,
   1747873779, 1955562222, 2024104815, 2227730452, 2361852424,
   2428436474, 2756734187, 3204031479, 3329325298]

/-- Message padding: 0x80, zeros to 56 mod 64, then the bit length as eight
big-endian bytes. -/
def shaPad (msg : List Nat) : List Nat :=
  let len := msg.length
  let zeros := (64 + 55 - len % 64) % 64
  let bitLen := len * 8
  msg ++ [0x80] ++ List.replicate zeros 0 ++
    [(bitLen >>> 56) % 256, (bitLen >>> 48) % 256, (bitLen >>> 40) % 256,
     (bitLen >>> 32) % 256, (bitLen >>> 24) % 256, (bitLen >>> 16) % 256,
     (bitLen >>> 8) % 256, bitLen % 256]

/-- Split the padded message (whose length is a multiple of 64) into its
64-byte blocks. -/
def shaBlocks (bs : List Nat) : List (List Nat) :=
  (List.range (bs.length / 64)).map (fun i => (bs.drop (64 * i)).take 64)

/-- The first sixteen 32-bit big-endian schedule words of a block. -/
def blockWords (block : List Nat) : List Nat :=
  (List.range 16).map (fun i =>
    ((block.getD (4 * i) 0) <<< 24) + ((block.getD (4 * i + 1) 0) <<< 16) +
      ((block.getD (4 * i + 2) 0) <<< 8) + block.getD (4 * i + 3) 0)

/-- Extend the schedule to 64 words. -/
def extendW (w : List Nat) : Nat → List Nat
  | 0 => w
  | n + 1 =>
    let t := w.length
    let next := add32 (add32 (smallSigma1 (w.getD (t - 2) 0)) (w.getD (t - 7) 0))
      (add32 (smallSigma0 (w.getD (t - 15) 0)) (w.getD (t - 16) 0))
    extendW (w ++ [next]) n

/-- Working state of the compression function. -/
structure ShaState where
  h0 : Nat
  h1 : Nat
  h2 : Nat
  h3 : Nat
  h4 : Nat
  h5 : Nat
  h6 : Nat
  h7 : Nat

def shaInit : ShaState :=
  ⟨1779033703, 3144134277, 1013904242, 2773480762,
   1359893119, 2600822924, 528734635, 1541459225⟩

/-- One round of the compression loop. -/
def shaRound (st : ShaState) (kw : Nat × Nat) : ShaState :=
  let t1 := add32 (add32 (add32 st.h7 (bigSigma1 st.h4)) (chF st.h4 st.h5 st.h6))
    (add32 kw.1 kw.2)
  let t2 := add32 (bigSigma0 st.h0) (majF st.h0 st.h1 st.h2)
  ⟨add32 t1 t2, st.h0, st.h1, st.h2, add32 st.h3 t1, st.h4, st.h5, st.h6⟩

/-- Compress one 64-byte block into the running state. -/
def shaCompress (st : ShaState) (block : List Nat) : ShaState :=
  let w := extendW (blockWords block) 48
  let f := (shaK.zip w).foldl shaRound st
  ⟨add32 st.h0 f.h0, add32 st.h1 f.h1, add32 st.h2 f.h2, add32 st.h3 f.h3,
   add32 st.h4 f.h4, add32 st.h5 f.h5, add32 st.h6 f.h6, add32 st.h7 f.h7⟩

def wordBytesBE (x : Nat) : List Nat :=
  [(x >>> 24) % 256, (x >>> 16) % 256, (x >>> 8) % 256, x % 256]

/-- crypto.subtle.digest("SHA-256", bytes) as a byte list. -/
def sha256 (msg : List Nat) : List Nat :=
  let st := (shaBlocks (shaPad msg)).foldl shaCompress shaInit
  wordBytesBE st.h0 ++ wordBytesBE st.h1 ++ wordBytesBE st.h2 ++ wordBytesBE st.h3 ++
    wordBytesBE st.h4 ++ wordBytesBE st.h5 ++ wordBytesBE st.h6 ++ wordBytesBE st.h7

def hexDigit (n : Nat) : Char :=
  ("0123456789abcdef".toList).getD (n % 16) '0'

/-- b.toString(16).padStart(2, "0") for a byte. -/
def byteToHex (b : Nat) : List Char :=
  [hexDigit (b / 16), hexDigit (b % 16)]

def isLowerHexDigit (c : Char) : Bool :=
  ('0' ≤ c && c ≤ '9') || ('a' ≤ c && c ≤ 'f')

/-- part_004 lines 85-91: SHA-256 over the UTF-8 encoding, rendered as
lowercase hexadecimal. -/
def hashText (s : String) : String :=
  String.mk (((sha256 (utf8Bytes s)).map byteToHex).flatten)

/-! ### The summary store (storage.js lines 77-91 and 157-165) -/

/-- One stored cache entry: { summary, hash, date }. -/
structure StoredSummary where
  summary : SRecord
  hash : String
  date : Nat
deriving DecidableEq

/-- The summaries object, keyed by URL.  Writes keep at most one binding
per key. -/
def sGet (store : List (String × StoredSummary)) (url : String) : Option StoredSummary :=
  (store.find? (fun p => p.1 == url)).map (fun p => p.2)

def sSet (store : List (String × StoredSummary)) (url : String) (v : StoredSummary) :
    List (String × StoredSummary) :=
  if (store.find? (fun p => p.1 == url)).isSome then
    store.map (fun p => if p.1 == url then (url, v) else p)
  else store ++ [(url, v)]

/-- storage.js lines 88-91: summaries[url] || null (entries are objects,
hence truthy exactly when present). -/
def getSummary (store : List (String × StoredSummary)) (url : String) : Option StoredSummary :=
  sGet store url

/-- storage.js lines 77-81: summaries[url] = { summary, hash, date: Date.now() }. -/
def saveSummary (store : List (String × StoredSummary)) (url : String) (summary : SRecord)
    (hash : String) (now : Nat) : List (String × StoredSummary) :=
  sSet store url ⟨summary, hash, now⟩

/-- storage.js lines 157-165: delete summaries[url] when present; the Bool
is the returned value. -/
def removeSummary (store : List (String × StoredSummary)) (url : String) :
    List (String × StoredSummary) × Bool :=
  if (sGet store url).isSome then (store.filter (fun p => p.1 ≠ url), true)
  else (store, false)

/-! ### The cache step of the SUMMARIZE_POLICY handler (part_004 lines 324-343) -/

structure SummarizeOutcome where
  result : SRecord
  store : List (String × StoredSummary)
  providerCalled : Bool
deriving DecidableEq

/-- part_004 lines 324-343: given the freshly computed hash of the distilled
text and the record the provider would return, reuse the cached summary when
the stored hash matches, otherwise drop the stale entry, call the provider
and store the new record.  providerCalled records whether summarizePolicy
was invoked. -/
def summarizeCacheStep (store : List (String × StoredSummary)) (url : String) (hash : String)
    (fresh : SRecord) (now : Nat) : SummarizeOutcome :=
  match getSummary store url with
  | some existing =>
    if existing.hash ≠ hash then
      let store1 := (removeSummary store url).1
      ⟨fresh, saveSummary store1 url fresh hash now, true⟩
    else ⟨existing.summary, store, false⟩
  | none => ⟨fresh, saveSummary store url fresh hash now, true⟩

/-! ### Basic facts about the score clamp and the norm block -/

set_option maxRecDepth 100000
set_option maxHeartbeats 2000000

theorem clampScoreQ_bounds (q : JsNum) : 0 ≤ clampScoreQ q ∧ clampScoreQ q ≤ 10 := by
  unfold clampScoreQ jsMax jsMin
  split <;> split <;> omega

theorem clampScore_bounds (o : Option JsNum) : 0 ≤ clampScore o ∧ clampScore o ≤ 10 := by
  cases o with
  | none => simp [clampScore]
  | some q => exact clampScoreQ_bounds q

theorem normScore_bounds (v : JVal) : 0 ≤ normScore v ∧ normScore v ≤ 10 := by
  unfold normScore
  exact clampScore_bounds _

theorem normBlock_score (c a : JVal) :
    (normBlock c a).privacy_score = normScore (parsedValue c a) := rfl

/-- The final range validation of summarizePolicy never fires: the result is
always the norm record. -/
theorem summarizePolicyNorm_eq_ok (c a : JVal) :
    summarizePolicyNorm c a = Except.ok (normBlock c a) := by
  rcases normScore_bounds (parsedValue c a) with ⟨h1, h2⟩
  unfold summarizePolicyNorm
  rw [if_neg]
  simp only [normBlock_score, Bool.or_eq_true, decide_eq_true_eq, not_or, not_lt]
  omega

/-- C3: for every numeric strategy output, the final privacy_score is an
integer in [0,10], obtained by rounding and clamping; the raw score -3 maps
to 0, the raw score 14 maps to 10, and the raw score 7.6 maps to 8; every
record the normalization returns respects the bounds. -/
theorem clampScore_int_range :
    (∀ q : JsNum, 0 ≤ clampScoreQ q ∧ clampScoreQ q ≤ 10) ∧
    clampScoreQ ⟨-3, 1⟩ = 0 ∧ clampScoreQ ⟨14, 1⟩ = 10 ∧ clampScoreQ ⟨76, 10⟩ = 8 ∧
    (∀ content alt : JVal,
      match summarizePolicyNorm content alt with
      | .ok r => 0 ≤ r.privacy_score ∧ r.privacy_score ≤ 10
      | .error _ => True) := by
  refine ⟨clampScoreQ_bounds, by decide, by decide, by decide, ?_⟩
  intro content alt
  rw [summarizePolicyNorm_eq_ok]
  simpa [normBlock_score] using normScore_bounds (parsedValue content alt)

/-- C9: clampScore maps NaN to 5 and every other input to an integer in
[0,10]; consequently the summarizePolicy branch that would throw
"privacy_score out of range (must be 0-10)" is unreachable — normalization
always returns the norm record. -/
theorem clampScore_total_safety :
    clampScore none = 5 ∧
    (∀ o : Option JsNum, 0 ≤ clampScore o ∧ clampScore o ≤ 10) ∧
    (∀ content alt : JVal,
      summarizePolicyNorm content alt = Except.ok (normBlock content alt)) := by
  exact ⟨rfl, clampScore_bounds, summarizePolicyNorm_eq_ok⟩

/-- C5: the fenced JSON reply round-trips — the fence delimiters are
stripped, the JSON object is parsed, and normalization returns exactly
privacy_score 3, score_explanation "Minimal tracking", summary "# OK". -/
theorem fenced_json_roundtrip :
    tryParseJsonFromContent
        (.str ("```json\n\x7b\"privacy_score\":3,\"score_explanation\":\"Minimal tracking\",\"summary\":\"# OK\"\x7d\n```")) =
      .obj [("privacy_score", .num ⟨3, 1⟩), ("score_explanation", .str ("Minimal tracking")),
            ("summary", .str ("# OK"))] ∧
    summarizePolicyNorm
        (.str ("```json\n\x7b\"privacy_score\":3,\"score_explanation\":\"Minimal tracking\",\"summary\":\"# OK\"\x7d\n```")) .null =
      Except.ok ⟨3, "Minimal tracking", "# OK"⟩ := by
  exact ⟨by rfl, by decide⟩

/-- C6: the unstructured reply "Privacy score: 9/10\nExcessive tracking
because of broad third-party sharing.\n\nSummary:\nThey collect everything."
normalizes to score 9, an explanation containing "because of broad
third-party sharing", and the summary lines under the Summary heading. -/
theorem unstructured_fallback_example :
    summarizePolicyNorm
        (.str ("Privacy score: 9/10\nExcessive tracking because of broad third-party sharing.\n\nSummary:\nThey collect everything.")) .null =
      Except.ok ⟨9, "Excessive tracking because of broad third-party sharing",
        "They collect everything."⟩ ∧
    listInfixOf (("because of broad third-party sharing").toList)
      (("Excessive tracking because of broad third-party sharing").toList) = true := by
  exact ⟨by decide, by decide⟩

/-- C2 counterexample: a genuinely empty reply does not raise — the
normalization of the empty string still returns the neutral record, so
MalformedResponse is not raised iff the reply is empty/non-string/non-object.
The same holds for the non-string content undefined. -/
theorem empty_reply_does_not_raise :
    summarizePolicyNorm (.str ("")) .null =
      Except.ok ⟨5, "No explicit score provided; using neutral score", ""⟩ ∧
    summarizePolicyNorm .undef .null =
      Except.ok ⟨5, "No explicit score provided; using neutral score", ""⟩ := by
  exact ⟨by decide, by decide⟩

/-- C4 counterexample: on the nine-word input "a b c d e f g h. i" the
source keeps only "a b c d e f g h" — after truncation to the first 8
whitespace-delimited words it additionally strips the period the cut
exposed, so the output is not the trim-strip-truncate composition, which
yields "a b c d e f g h.". -/
theorem explanation_truncation_counterexample :
    normalizeExplanation ("a b c d e f g h. i") = "a b c d e f g h" ∧
    specExplanationNorm ("a b c d e f g h. i") = "a b c d e f g h." ∧
    ¬ normalizeExplanation ("a b c d e f g h. i") =
        specExplanationNorm ("a b c d e f g h. i") := by
  exact ⟨by decide, by decide, by decide⟩

/-- C4 amended: the normalized explanation is the trim-strip-truncate
composition of the specification followed by the removal of one period that
the 8-word cap may have left trailing; in particular the twelve-word example
normalizes to its first 8 words. -/
theorem explanation_truncation :
    (∀ s : String, normalizeExplanation s = stripOneFinalDot (specExplanationNorm s)) ∧
    normalizeExplanation ("Excessive data sharing with many third party advertising partners.") =
      "Excessive data sharing with many third party advertising" := by
  exact ⟨fun s => rfl, by decide⟩

/-! ### Frame properties of the summary store -/

theorem find?_key_map_set (rest : List (String × StoredSummary)) (url u' : String)
    (v : StoredSummary) (h : u' ≠ url) :
    List.find? (fun p => p.1 == u') (rest.map (fun p => if p.1 == url then (url, v) else p)) =
      List.find? (fun p => p.1 == u') rest := by
  induction rest with
  | nil => rfl
  | cons p rest ih =>
    by_cases hq : p.1 = url
    · have hset : (if (p.1 == url) = true then (url, v) else p) = (url, v) := by simp [hq]
      rw [List.map_cons, hset,
        List.find?_cons_of_neg _ (by simp only [beq_iff_eq]; exact Ne.symm h),
        List.find?_cons_of_neg _ (by simp only [beq_iff_eq, hq]; exact Ne.symm h)]
      exact ih
    · have hset : (if (p.1 == url) = true then (url, v) else p) = p := by simp [hq]
      rw [List.map_cons, hset]
      cases hpu : (p.1 == u') with
      | true => rw [List.find?_cons_of_pos _ (by exact hpu), List.find?_cons_of_pos _ (by exact hpu)]
      | false =>
        rw [List.find?_cons_of_neg _ (by simp [hpu]), List.find?_cons_of_neg _ (by simp [hpu])]
        exact ih

theorem find?_key_filter (rest : List (String × StoredSummary)) (url u' : String)
    (h : u' ≠ url) :
    List.find? (fun p => p.1 == u') (rest.filter (fun p => p.1 ≠ url)) =
      List.find? (fun p => p.1 == u') rest := by
  induction rest with
  | nil => rfl
  | cons p rest ih =>
    by_cases hq : p.1 = url
    · rw [List.filter_cons_of_neg (by simp [hq]),
        List.find?_cons_of_neg _ (by simp only [beq_iff_eq, hq]; exact Ne.symm h)]
      exact ih
    · rw [List.filter_cons_of_pos (by simp [hq])]
      cases hpu : (p.1 == u') with
      | true => rw [List.find?_cons_of_pos _ (by exact hpu), List.find?_cons_of_pos _ (by exact hpu)]
      | false =>
        rw [List.find?_cons_of_neg _ (by simp [hpu]), List.find?_cons_of_neg _ (by simp [hpu])]
        exact ih

theorem getSummary_saveSummary_ne (store : List (String × StoredSummary))
    (url : String) (rec : SRecord) (hash : String) (now : Nat) (u' : String) (h : u' ≠ url) :
    getSummary (saveSummary store url rec hash now) u' = getSummary store u' := by
  unfold getSummary saveSummary sSet sGet
  split
  · rw [find?_key_map_set store url u' _ h]
  · rw [List.find?_append,
      List.find?_cons_of_neg _ (by simp only [beq_iff_eq]; exact Ne.symm h), List.find?_nil]
    cases List.find? (fun p => p.1 == u') store <;> rfl

theorem getSummary_removeSummary_ne (store : List (String × StoredSummary))
    (url u' : String) (h : u' ≠ url) :
    getSummary (removeSummary store url).1 u' = getSummary store u' := by
  unfold getSummary removeSummary
  split
  · show sGet (store.filter (fun p => p.1 ≠ url)) u' = sGet store u'
    unfold sGet
    rw [find?_key_filter store url u' h]
  · rfl

theorem removeSummary_returns (store : List (String × StoredSummary)) (url : String) :
    (removeSummary store url).2 = (getSummary store url).isSome := by
  unfold removeSummary getSummary
  split <;> simp_all

/-- C10: saveSummary and removeSummary modify at most the entry keyed by
url — every other key reads the same before and after — and removeSummary
returns true exactly when an entry for url existed. -/
theorem store_frame_conditions :
    (∀ (store : List (String × StoredSummary)) (url : String) (rec : SRecord)
       (hash : String) (now : Nat) (u' : String), u' ≠ url →
      getSummary (saveSummary store url rec hash now) u' = getSummary store u') ∧
    (∀ (store : List (String × StoredSummary)) (url u' : String), u' ≠ url →
      getSummary (removeSummary store url).1 u' = getSummary store u') ∧
    (∀ (store : List (String × StoredSummary)) (url : String),
      (removeSummary store url).2 = (getSummary store url).isSome) := by
  exact ⟨getSummary_saveSummary_ne, getSummary_removeSummary_ne, removeSummary_returns⟩

theorem store_frame_conditions_witness :
    getSummary
        (saveSummary [(("a" : String), ⟨⟨1, "e", "s"⟩, "h1", 3⟩)] "b" ⟨2, "f", "t"⟩ "h2" 4) "a" =
      getSummary [(("a" : String), ⟨⟨1, "e", "s"⟩, "h1", 3⟩)] "a" ∧
    getSummary (removeSummary [(("a" : String), ⟨⟨1, "e", "s"⟩, "h1", 3⟩)] "a").1 "b" =
      getSummary [(("a" : String), ⟨⟨1, "e", "s"⟩, "h1", 3⟩)] "b" := by
  exact ⟨store_frame_conditions.1 _ "b" _ _ _ "a" (by decide),
         store_frame_conditions.2.1 _ "a" "b" (by decide)⟩

/-- C1: with a cached entry for the key holding hash F and a freshly
computed hash F', the handler calls the provider iff F ≠ F'; on a match it
returns the cached record unchanged with the store untouched and no
provider call; on a mismatch the stale entry is removed and the new record
is stored under the new hash. -/
theorem cache_validity (store : List (String × StoredSummary)) (url : String)
    (e : StoredSummary) (Fq : String) (fresh : SRecord) (now : Nat)
    (hget : getSummary store url = some e) :
    ((summarizeCacheStep store url Fq fresh now).providerCalled = true ↔ e.hash ≠ Fq) ∧
    (e.hash = Fq →
      (summarizeCacheStep store url Fq fresh now).result = e.summary ∧
      (summarizeCacheStep store url Fq fresh now).store = store ∧
      (summarizeCacheStep store url Fq fresh now).providerCalled = false) ∧
    (e.hash ≠ Fq →
      (summarizeCacheStep store url Fq fresh now).result = fresh ∧
      (summarizeCacheStep store url Fq fresh now).store =
        saveSummary (removeSummary store url).1 url fresh Fq now ∧
      (summarizeCacheStep store url Fq fresh now).providerCalled = true) := by
  unfold summarizeCacheStep
  rw [hget]
  by_cases h : e.hash = Fq <;> simp [h]

theorem cache_validity_witness :
    ((summarizeCacheStep [(("u" : String), ⟨⟨1, "e", "s"⟩, "F", 7⟩)] "u" "F" ⟨2, "x", "y"⟩ 9).result =
        (⟨1, "e", "s"⟩ : SRecord) ∧
      (summarizeCacheStep [(("u" : String), ⟨⟨1, "e", "s"⟩, "F", 7⟩)] "u" "F" ⟨2, "x", "y"⟩ 9).store =
        [(("u" : String), ⟨⟨1, "e", "s"⟩, "F", 7⟩)] ∧
      (summarizeCacheStep [(("u" : String), ⟨⟨1, "e", "s"⟩, "F", 7⟩)] "u" "F" ⟨2, "x", "y"⟩ 9).providerCalled =
        false) ∧
    (summarizeCacheStep [(("u" : String), ⟨⟨1, "e", "s"⟩, "F", 7⟩)] "u" "G" ⟨2, "x", "y"⟩ 9).providerCalled =
      true := by
  refine ⟨(cache_validity _ "u" ⟨⟨1, "e", "s"⟩, "F", 7⟩ "F" ⟨2, "x", "y"⟩ 9 (by decide)).2.1 rfl, ?_⟩
  exact ((cache_validity _ "u" ⟨⟨1, "e", "s"⟩, "F", 7⟩ "G" ⟨2, "x", "y"⟩ 9 (by decide)).1).2
    (by decide)

/-! ### Shape of the hashText output -/

theorem getD_all {p : Char → Bool} (l : List Char) (d : Char) (i : Nat)
    (hl : l.all p = true) (hd : p d = true) : p (l.getD i d) = true := by
  induction l generalizing i with
  | nil => simpa [List.getD]
  | cons c rest ih =>
    cases i with
    | zero => simp_all
    | succ j =>
      simp only [List.all_cons, Bool.and_eq_true] at hl
      simpa using ih j hl.2

theorem hexDigit_lower (n : Nat) : isLowerHexDigit (hexDigit n) = true := by
  unfold hexDigit
  exact getD_all _ _ _ (by decide) (by decide)

theorem flatten_byteToHex_all (l : List Nat) :
    ((l.map byteToHex).flatten).all isLowerHexDigit = true := by
  induction l with
  | nil => rfl
  | cons b rest ih => simp [byteToHex, ih, hexDigit_lower]

theorem flatten_byteToHex_length (l : List Nat) :
    ((l.map byteToHex).flatten).length = 2 * l.length := by
  induction l with
  | nil => rfl
  | cons b rest ih =>
    simp [byteToHex, ih]
    omega

theorem sha256_length (msg : List Nat) : (sha256 msg).length = 32 := by
  unfold sha256 wordBytesBE
  simp

theorem hashText_length (s : String) : (hashText s).length = 64 := by
  show (((sha256 (utf8Bytes s)).map byteToHex).flatten).length = 64
  rw [flatten_byteToHex_length, sha256_length]

/-- The NIST test vector for the embedded SHA-256. -/
theorem hashText_abc_vector :
    hashText "abc" = "ba7816bf8f01cfea414140de5dae2223b00361a396177a9cb410ff61f20015ad" := by
  decide

/-- C8: hashText is deterministic — equal inputs give equal outputs across
invocations of the pure function — and every output is the SHA-256 digest
of the UTF-8 encoding of the input rendered as 64 lowercase hexadecimal
characters. -/
theorem hashText_deterministic (s t : String) (h : s = t) :
    hashText s = hashText t ∧
    hashText s = String.mk (((sha256 (utf8Bytes s)).map byteToHex).flatten) ∧
    (hashText s).length = 64 ∧
    ((hashText s).toList.all isLowerHexDigit) = true := by
  subst h
  refine ⟨rfl, rfl, hashText_length s, ?_⟩
  show (((sha256 (utf8Bytes s)).map byteToHex).flatten).all isLowerHexDigit = true
  exact flatten_byteToHex_all _

theorem hashText_deterministic_witness :
    hashText "abc" = hashText "abc" ∧
    hashText "abc" = String.mk (((sha256 (utf8Bytes "abc")).map byteToHex).flatten) ∧
    (hashText "abc").length = 64 ∧
    ((hashText "abc").toList.all isLowerHexDigit) = true :=
  hashText_deterministic "abc" "abc" rfl

/-! ### The neutral fallback of extractFromUnstructured -/

theorem findScoreAux_none (lines : List String)
    (h : ∀ l ∈ lines, scoreLineMatch l = none) :
    ∀ i, findScoreAux lines i = none := by
  induction lines with
  | nil => intro i; rfl
  | cons l rest ih =>
    intro i
    unfold findScoreAux
    rw [h l (by simp)]
    exact ih (fun x hx => h x (by simp [hx])) (i + 1)

theorem extractFromUnstructured_noScore (s : String)
    (h : ∀ l ∈ unstructuredLines (stripCodeFences s), scoreLineMatch l = none) :
    ∃ su, extractFromUnstructured (.str s) =
      .obj [("privacy_score", .num ⟨5, 1⟩),
            ("score_explanation", .str ("No explicit score provided; using neutral score.")),
            ("summary", .str su)] := by
  have hf := findScoreAux_none _ h 0
  simp only [extractFromUnstructured]
  rw [hf]
  exact ⟨_, rfl⟩

theorem clampScoreQ_five : clampScoreQ ⟨5, 1⟩ = 5 := by decide

theorem truthy_null : truthy .null = false := rfl

theorem jvGet_extract_obj (k : String) (x y z : JVal) :
    jvGet (.obj [("privacy_score", x), ("score_explanation", y), ("summary", z)]) k =
      (if ("summary" == k) = true then z
       else if ("score_explanation" == k) = true then y
       else if ("privacy_score" == k) = true then x
       else .undef) := by
  unfold jvGet
  show (match List.find? (fun p => p.1 == k)
      [(("summary" : String), z), (("score_explanation" : String), y),
       (("privacy_score" : String), x)] with
    | some p => p.2
    | none => JVal.undef) = _
  cases h1 : (("summary" : String) == k) with
  | true =>
    rw [List.find?_cons_of_pos _ (by exact h1)]
    simp [h1]
  | false =>
    rw [List.find?_cons_of_neg _ (by simp [h1])]
    cases h2 : (("score_explanation" : String) == k) with
    | true =>
      rw [List.find?_cons_of_pos _ (by exact h2)]
      simp [h1, h2]
    | false =>
      rw [List.find?_cons_of_neg _ (by simp [h2])]
      cases h3 : (("privacy_score" : String) == k) with
      | true =>
        rw [List.find?_cons_of_pos _ (by exact h3)]
        simp [h1, h2, h3]
      | false =>
        rw [List.find?_cons_of_neg _ (by simp [h3]), List.find?_nil]
        simp [h1, h2, h3]

/-- C2 amended: a reply with some text but no recoverable JSON and no score
pattern still normalizes to the neutral record with score 5 and the generic
explanation; and normalization never raises MalformedResponse — every
content value, including the empty, non-string and non-object ones,
normalizes to a valid record. -/
theorem neutral_fallback_no_malformed :
    (∀ content alt : JVal, ∃ r, summarizePolicyNorm content alt = Except.ok r) ∧
    (∀ s : String, s ≠ "" →
      truthy (tryParseJsonFromContent (.str s)) = false →
      (∀ l ∈ unstructuredLines (stripCodeFences s), scoreLineMatch l = none) →
      ∃ su, summarizePolicyNorm (.str s) .null =
        Except.ok ⟨5, "No explicit score provided; using neutral score", su⟩) := by
  constructor
  · intro content alt
    exact ⟨normBlock content alt, summarizePolicyNorm_eq_ok content alt⟩
  · intro s hs htp hsc
    obtain ⟨su, he⟩ := extractFromUnstructured_noScore s hsc
    have hpv : parsedValue (.str s) .null =
        .obj [("privacy_score", .num ⟨5, 1⟩),
              ("score_explanation", .str ("No explicit score provided; using neutral score.")),
              ("summary", .str su)] := by
      simp only [parsedValue]
      simp [htp, truthy_null, he, jvGet_extract_obj]
    have hscore : normScore (.obj [("privacy_score", .num ⟨5, 1⟩),
        ("score_explanation", .str ("No explicit score provided; using neutral score.")),
        ("summary", .str su)]) = 5 := by
      simp only [normScore]
      simp [jvGet_extract_obj, isNum, jsNumber, clampScore, clampScoreQ_five]
    have hexp : normalizeExplanation ("No explicit score provided; using neutral score.") =
        "No explicit score provided; using neutral score" := by decide
    have hnb : normBlock (.str s) .null =
        ⟨5, "No explicit score provided; using neutral score", su⟩ := by
      simp only [normBlock, hpv, hscore]
      simp [jvGet_extract_obj, jsCoalesceStr, isNullish, jsToString, hexp]
    refine ⟨su, ?_⟩
    rw [summarizePolicyNorm_eq_ok, hnb]

theorem neutral_fallback_witness :
    ∃ su, summarizePolicyNorm (.str ("no usable content at all ???")) .null =
      Except.ok ⟨5, "No explicit score provided; using neutral score", su⟩ :=
  neutral_fallback_no_malformed.2 "no usable content at all ???" (by decide) (by decide)
    (by decide)

/-! ### The DistilledText invariant of normalizeWhitespace -/

theorem hws_imp_reWs (c : Char) (h : hwsChar c = true) : reWs c = true := by
  simp only [hwsChar, Bool.or_eq_true, beq_iff_eq] at h
  rcases h with ((h | h) | h) | h <;> subst h <;> decide

theorem not_reWs_hws (c : Char) (h : reWs c = false) : hwsChar c = false := by
  by_contra hcon
  rw [Bool.not_eq_false] at hcon
  rw [hws_imp_reWs c hcon] at h
  cases h

theorem head?_dropWhile_not (p : Char → Bool) (l : List Char) :
    ∀ c, (l.dropWhile p).head? = some c → p c = false := by
  induction l with
  | nil => intro c hc; simp at hc
  | cons a rest ih =>
    intro c hc
    rw [List.dropWhile_cons] at hc
    split at hc
    · exact ih c hc
    · rename_i hpa
      simp only [List.head?_cons, Option.some.injEq] at hc
      subst hc
      simpa using hpa

theorem noAdjBy_tail (p : Char → Bool) (c : Char) (l : List Char)
    (h : noAdjBy p (c :: l) = true) : noAdjBy p l = true := by
  cases l with
  | nil => rfl
  | cons d r =>
    simp only [noAdjBy, Bool.and_eq_true] at h
    exact h.2

theorem noAdjBy_cons (p : Char → Bool) (a : Char) (l : List Char)
    (hl : noAdjBy p l = true)
    (hh : ∀ d, l.head? = some d → (p a && p d) = false) :
    noAdjBy p (a :: l) = true := by
  cases l with
  | nil => rfl
  | cons d r =>
    simp only [noAdjBy, Bool.and_eq_true]
    exact ⟨by simp [hh d rfl], hl⟩

theorem noAdjBy_dropWhile (p q : Char → Bool) (l : List Char)
    (h : noAdjBy p l = true) : noAdjBy p (l.dropWhile q) = true := by
  induction l with
  | nil => exact h
  | cons c rest ih =>
    rw [List.dropWhile_cons]
    split
    · exact ih (noAdjBy_tail p c rest h)
    · exact h

theorem dropTrailWhile_head? (p : Char → Bool) (l : List Char) :
    dropTrailWhile p l = [] ∨ (dropTrailWhile p l).head? = l.head? := by
  cases l with
  | nil => exact Or.inl rfl
  | cons c rest =>
    simp only [dropTrailWhile]
    cases hr : dropTrailWhile p rest with
    | nil =>
      by_cases hp : p c
      · exact Or.inl (by simp [hp])
      · exact Or.inr (by simp [hp])
    | cons d ds => exact Or.inr rfl

theorem mem_dropTrailWhile (p : Char → Bool) (l : List Char) (c : Char)
    (h : c ∈ dropTrailWhile p l) : c ∈ l := by
  induction l with
  | nil => rw [dropTrailWhile] at h; simp at h
  | cons a rest ih =>
    simp only [dropTrailWhile] at h
    cases hr : dropTrailWhile p rest with
    | nil =>
      rw [hr] at h
      by_cases hp : p a
      · simp [hp] at h
      · simp only [hp, Bool.false_eq_true, if_false, List.mem_singleton] at h
        simp [h]
    | cons d ds =>
      rw [hr] at h
      rcases List.mem_cons.mp h with rfl | h2
      · simp
      · have : c ∈ dropTrailWhile p rest := by rw [hr]; exact h2
        simp [ih this]

theorem all_dropTrailWhile (p q : Char → Bool) (l : List Char)
    (h : l.all q = true) : (dropTrailWhile p l).all q = true := by
  rw [List.all_eq_true] at h ⊢
  intro x hx
  exact h x (mem_dropTrailWhile p l x hx)

theorem getLast?_dropTrailWhile (p : Char → Bool) (l : List Char) :
    ∀ c, (dropTrailWhile p l).getLast? = some c → p c = false := by
  induction l with
  | nil => intro c h; simp [dropTrailWhile] at h
  | cons a rest ih =>
    intro c h
    simp only [dropTrailWhile] at h
    cases hr : dropTrailWhile p rest with
    | nil =>
      rw [hr] at h
      by_cases hp : p a
      · simp [hp] at h
      · simp only [hp, Bool.false_eq_true, if_false, List.getLast?_singleton,
          Option.some.injEq] at h
        subst h
        simpa using hp
    | cons d ds =>
      rw [hr] at h
      rw [List.getLast?_cons_cons] at h
      exact ih c (by rw [hr]; exact h)

theorem noAdjBy_dropTrailWhile (p q : Char → Bool) (l : List Char)
    (h : noAdjBy q l = true) : noAdjBy q (dropTrailWhile p l) = true := by
  induction l with
  | nil => exact h
  | cons c rest ih =>
    have hrest := noAdjBy_tail q c rest h
    simp only [dropTrailWhile]
    cases hr : dropTrailWhile p rest with
    | nil =>
      by_cases hp : p c
      · simp [hp, noAdjBy]
      · simp [hp, noAdjBy]
    | cons d ds =>
      have h1 : noAdjBy q (d :: ds) = true := by rw [← hr]; exact ih hrest
      have hhd : rest.head? = some d := by
        rcases dropTrailWhile_head? p rest with hnil | hh
        · rw [hnil] at hr; cases hr
        · rw [hr] at hh; exact hh.symm
      cases rest with
      | nil => simp at hhd
      | cons e r2 =>
        simp only [List.head?_cons, Option.some.injEq] at hhd
        have hpair : (q c && q d) = false := by
          rw [← hhd]
          simp only [noAdjBy, Bool.and_eq_true] at h
          rcases h with ⟨hne, -⟩
          simpa only [Bool.not_eq_true'] using hne
        exact noAdjBy_cons q c (d :: ds) h1 (fun x hx => by
          simp only [List.head?_cons, Option.some.injEq] at hx
          subst hx
          exact hpair)

theorem noAdjBy_append_left (p : Char → Bool) (ys : List Char) :
    ∀ xs : List Char, noAdjBy p (xs ++ ys) = true → noAdjBy p xs = true := by
  intro xs
  induction xs with
  | nil => intro _; rfl
  | cons c t ih =>
    intro h
    cases t with
    | nil => rfl
    | cons e t2 =>
      simp only [List.cons_append, noAdjBy, Bool.and_eq_true] at h ⊢
      exact ⟨h.1, ih h.2⟩

theorem noAdjBy_append (p : Char → Bool) (ys : List Char)
    (hy : noAdjBy p ys = true) :
    ∀ xs : List Char, noAdjBy p xs = true →
    (∀ a b, xs.getLast? = some a → ys.head? = some b → (p a && p b) = false) →
    noAdjBy p (xs ++ ys) = true := by
  intro xs
  induction xs with
  | nil => intro _ _; exact hy
  | cons c t ih =>
    intro hx hj
    cases t with
    | nil =>
      apply noAdjBy_cons p c ys hy
      intro d hd
      exact hj c d (by simp) hd
    | cons e t2 =>
      have ih2 := ih (noAdjBy_tail p c _ hx)
        (fun a b ha hb => hj a b (by rw [List.getLast?_cons_cons]; exact ha) hb)
      show noAdjBy p (c :: ((e :: t2) ++ ys)) = true
      apply noAdjBy_cons p c _ ih2
      intro d hd
      have hde : d = e := by
        simp only [List.cons_append, List.head?_cons, Option.some.injEq] at hd
        exact hd.symm
      subst hde
      simp only [noAdjBy, Bool.and_eq_true] at hx
      simpa only [Bool.not_eq_true'] using hx.1

theorem adjOkBy_tail (r : Char → Char → Bool) (c : Char) (l : List Char)
    (h : adjOkBy r (c :: l) = true) : adjOkBy r l = true := by
  cases l with
  | nil => rfl
  | cons d t =>
    simp only [adjOkBy, Bool.and_eq_true] at h
    exact h.2

theorem adjOkBy_cons (r : Char → Char → Bool) (a : Char) (l : List Char)
    (hl : adjOkBy r l = true)
    (hh : ∀ d, l.head? = some d → r a d = true) :
    adjOkBy r (a :: l) = true := by
  cases l with
  | nil => rfl
  | cons d t =>
    simp only [adjOkBy, Bool.and_eq_true]
    exact ⟨hh d rfl, hl⟩

theorem adjOkBy_append (r : Char → Char → Bool) (ys : List Char)
    (hy : adjOkBy r ys = true) :
    ∀ xs : List Char, adjOkBy r xs = true →
    (∀ a b, xs.getLast? = some a → ys.head? = some b → r a b = true) →
    adjOkBy r (xs ++ ys) = true := by
  intro xs
  induction xs with
  | nil => intro _ _; exact hy
  | cons c t ih =>
    intro hx hj
    cases t with
    | nil =>
      apply adjOkBy_cons r c ys hy
      intro d hd
      exact hj c d (by simp) hd
    | cons e t2 =>
      have ih2 := ih (adjOkBy_tail r c _ hx)
        (fun a b ha hb => hj a b (by rw [List.getLast?_cons_cons]; exact ha) hb)
      show adjOkBy r (c :: ((e :: t2) ++ ys)) = true
      apply adjOkBy_cons r c _ ih2
      intro d hd
      have hde : d = e := by
        simp only [List.cons_append, List.head?_cons, Option.some.injEq] at hd
        exact hd.symm
      subst hde
      simp only [adjOkBy, Bool.and_eq_true] at hx
      exact hx.1

theorem adjOkBy_dropWhile (r : Char → Char → Bool) (q : Char → Bool)
    (l : List Char) (h : adjOkBy r l = true) :
    adjOkBy r (l.dropWhile q) = true := by
  induction l with
  | nil => exact h
  | cons c rest ih =>
    rw [List.dropWhile_cons]
    split
    · exact ih (adjOkBy_tail r c rest h)
    · exact h

theorem adjOkBy_dropTrailWhile (r : Char → Char → Bool) (p : Char → Bool)
    (l : List Char) (h : adjOkBy r l = true) :
    adjOkBy r (dropTrailWhile p l) = true := by
  induction l with
  | nil => exact h
  | cons c rest ih =>
    have hrest := adjOkBy_tail r c rest h
    simp only [dropTrailWhile]
    cases hr : dropTrailWhile p rest with
    | nil =>
      by_cases hp : p c
      · simp [hp, adjOkBy]
      · simp [hp, adjOkBy]
    | cons d ds =>
      have h1 : adjOkBy r (d :: ds) = true := by rw [← hr]; exact ih hrest
      have hhd : rest.head? = some d := by
        rcases dropTrailWhile_head? p rest with hnil | hh
        · rw [hnil] at hr; cases hr
        · rw [hr] at hh; exact hh.symm
      cases rest with
      | nil => simp at hhd
      | cons e r2 =>
        simp only [List.head?_cons, Option.some.injEq] at hhd
        have hpair : r c d = true := by
          rw [← hhd]
          simp only [adjOkBy, Bool.and_eq_true] at h
          exact h.1
        exact adjOkBy_cons r c (d :: ds) h1 (fun x hx => by
          simp only [List.head?_cons, Option.some.injEq] at hx
          subst hx
          exact hpair)

theorem nlSep_of_no_nl (l : List Char) (h : ('\n') ∉ l) : nlSep l = true := by
  induction l with
  | nil => rfl
  | cons c t ih =>
    have hc : (c == '\n') = false := by
      rw [beq_eq_false_iff_ne]
      intro he
      exact h (he ▸ List.mem_cons_self c t)
    have ht : ('\n') ∉ t := fun hm => h (List.mem_cons_of_mem c hm)
    cases t with
    | nil => rfl
    | cons d t2 =>
      have hd : (d == '\n') = false := by
        rw [beq_eq_false_iff_ne]
        intro he
        exact ht (he ▸ List.mem_cons_self d t2)
      show (nlPairOk c d && adjOkBy nlPairOk (d :: t2)) = true
      have ihd : adjOkBy nlPairOk (d :: t2) = true := ih ht
      rw [ihd, Bool.and_true]
      simp [nlPairOk, hc, hd]

theorem collapseHws_head? (l : List Char) :
    (collapseHws l).head? = l.head?.map (fun c => if hwsChar c then ' ' else c) := by
  cases l with
  | nil => rw [collapseHws]; rfl
  | cons c rest =>
    by_cases h : hwsChar c = true
    · rw [collapseHws, if_pos h]
      simp [h]
    · rw [collapseHws, if_neg h]
      simp only [Bool.not_eq_true] at h
      simp [h]

theorem collapseHws_allSpace (l : List Char) :
    (collapseHws l).all (fun c => !hwsChar c || c == ' ') = true := by
  induction l using collapseHws.induct with
  | case1 => rw [collapseHws]; rfl
  | case2 c rest h ih =>
    rw [collapseHws, if_pos h]
    simp [ih]
  | case3 c rest h ih =>
    rw [collapseHws, if_neg h]
    simp only [Bool.not_eq_true] at h
    simp [ih, h]

theorem collapseHws_noAdj (l : List Char) : noAdjHws (collapseHws l) = true := by
  unfold noAdjHws
  induction l using collapseHws.induct with
  | case1 => rw [collapseHws]; rfl
  | case2 c rest h ih =>
    rw [collapseHws, if_pos h]
    apply noAdjBy_cons _ _ _ ih
    intro d hd
    rw [collapseHws_head?] at hd
    cases hh : (rest.dropWhile hwsChar).head? with
    | none => rw [hh] at hd; cases hd
    | some e =>
      rw [hh] at hd
      have he : hwsChar e = false := head?_dropWhile_not _ _ e hh
      simp only [Option.map_some', Option.some.injEq, he, Bool.false_eq_true, if_false] at hd
      subst hd
      simp [he]
  | case3 c rest h ih =>
    rw [collapseHws, if_neg h]
    apply noAdjBy_cons _ _ _ ih
    intro d hd
    simp only [Bool.not_eq_true] at h
    simp [h]


theorem contains_of_mem_char (l : List Char) (a : Char) (h : a ∈ l) :
    l.contains a = true := by
  induction l with
  | nil => cases h
  | cons x xs ihx =>
    rcases List.mem_cons.mp h with rfl | h2
    · simp [List.contains_cons]
    · rw [List.contains_cons, ihx h2, Bool.or_true]

theorem collapseNl_head_nonWs (l : List Char)
    (hh : ∀ d, l.head? = some d → reWs d = false) :
    (collapseNl l).head? = l.head? := by
  cases l with
  | nil => rw [collapseNl]
  | cons c rest =>
    have := hh c rfl
    rw [collapseNl, if_neg (by simp [this])]
    rfl

theorem collapseNl_good (l : List Char) :
    l.all (fun c => !hwsChar c || c == ' ') = true → noAdjBy hwsChar l = true →
    noAdjBy hwsChar (collapseNl l) = true ∧
    (collapseNl l).all (fun c => !hwsChar c || c == ' ') = true ∧
    nlSep (collapseNl l) = true := by
  induction l using collapseNl.induct with
  | case1 =>
    intro _ _
    rw [collapseNl]
    exact ⟨rfl, rfl, rfl⟩
  | case2 c rest h rest2 ih =>
    intro h1 h2
    have h1t : rest.all (fun c => !hwsChar c || c == ' ') = true := by
      simp only [List.all_cons, Bool.and_eq_true] at h1
      exact h1.2
    have h2t : noAdjBy hwsChar rest = true := noAdjBy_tail _ _ _ h2
    have h1d : (rest.dropWhile reWs).all (fun c => !hwsChar c || c == ' ') = true := by
      rw [List.all_eq_true] at h1t ⊢
      intro x hx
      exact h1t x ((List.dropWhile_sublist reWs).subset hx)
    have h2d := noAdjBy_dropWhile hwsChar reWs rest h2t
    obtain ⟨ihA, ihB, ihC⟩ := ih h1d h2d
    have hhead : ∀ d, (collapseNl (rest.dropWhile reWs)).head? = some d → reWs d = false := by
      intro d hd
      rw [collapseNl_head_nonWs _ (fun e he => head?_dropWhile_not reWs rest e he)] at hd
      exact head?_dropWhile_not reWs rest d hd
    simp only [collapseNl]
    rw [if_pos h]
    by_cases hc : (c :: rest.takeWhile reWs).contains ('\n') = true
    · rw [if_pos hc, List.singleton_append]
      refine ⟨?_, ?_, ?_⟩
      · apply noAdjBy_cons _ _ _ ihA
        intro d _
        rw [show hwsChar ('\n') = false from by decide, Bool.false_and]
      · simp only [List.all_cons, Bool.and_eq_true]
        exact ⟨by decide, ihB⟩
      · refine adjOkBy_cons _ _ _ ihC ?_
        intro d hd
        simp [nlPairOk, hhead d hd]
    · rw [if_neg hc]
      have hnm : ('\n') ∉ (c :: rest.takeWhile reWs) := by
        intro hm
        exact hc (contains_of_mem_char _ _ hm)
      have hsplit : (c :: rest.takeWhile reWs) ++ rest.dropWhile reWs = c :: rest := by
        rw [List.cons_append, List.takeWhile_append_dropWhile]
      refine ⟨?_, ?_, ?_⟩
      · refine noAdjBy_append hwsChar _ ihA _ ?_ ?_
        · exact noAdjBy_append_left hwsChar (rest.dropWhile reWs) _
            (by rw [hsplit]; exact h2)
        · intro a b _ hb
          rw [not_reWs_hws b (hhead b hb), Bool.and_false]
      · rw [List.all_append, Bool.and_eq_true]
        refine ⟨?_, ihB⟩
        rw [List.all_eq_true] at h1 ⊢
        intro x hx
        apply h1
        rw [← hsplit]
        exact List.mem_append_left _ hx
      · refine adjOkBy_append nlPairOk _ ihC _ ?_ ?_
        · exact nlSep_of_no_nl _ hnm
        · intro a b _ hb
          simp [nlPairOk, hhead b hb]
  | case3 c rest h ih =>
    intro h1 h2
    rw [collapseNl, if_neg (by simp [h])]
    have h1t : rest.all (fun c => !hwsChar c || c == ' ') = true := by
      simp only [List.all_cons, Bool.and_eq_true] at h1
      exact h1.2
    have h2t : noAdjBy hwsChar rest = true := noAdjBy_tail _ _ _ h2
    obtain ⟨ihA, ihB, ihC⟩ := ih h1t h2t
    have hf : reWs c = false := by simpa using h
    refine ⟨?_, ?_, ?_⟩
    · apply noAdjBy_cons _ _ _ ihA
      intro d _
      rw [not_reWs_hws c hf, Bool.false_and]
    · simp only [List.all_cons, Bool.and_eq_true]
      refine ⟨?_, ihB⟩
      simp [not_reWs_hws c hf]
    · refine adjOkBy_cons _ _ _ ihC ?_
      intro d _
      simp [nlPairOk, hf]

theorem normalizeWhitespace_invariant (s : String) :
    wsInvariantStr (normalizeWhitespace s) = true := by
  obtain ⟨hadj, hall, hnl⟩ := collapseNl_good (collapseHws s.toList)
    (collapseHws_allSpace s.toList) (by exact collapseHws_noAdj s.toList)
  show wsInvariant (jsTrimL (collapseNl (collapseHws s.toList))) = true
  unfold jsTrimL trimRightWs
  unfold wsInvariant
  simp only [Bool.and_eq_true]
  set m := collapseNl (collapseHws s.toList) with hm
  refine ⟨⟨⟨⟨?_, ?_⟩, ?_⟩, ?_⟩, ?_⟩
  · -- head is not whitespace
    cases hh : (dropTrailWhile reWs (m.dropWhile reWs)).head? with
    | none => rfl
    | some c =>
      rcases dropTrailWhile_head? reWs (m.dropWhile reWs) with hnil | hh2
      · rw [hnil] at hh
        cases hh
      · rw [hh] at hh2
        have := head?_dropWhile_not reWs m c hh2.symm
        simp [this]
  · -- last is not whitespace
    cases hh : (dropTrailWhile reWs (m.dropWhile reWs)).getLast? with
    | none => rfl
    | some c =>
      have := getLast?_dropTrailWhile reWs (m.dropWhile reWs) c hh
      simp [this]
  · -- no two adjacent characters of the collapsed class
    show noAdjBy hwsChar (dropTrailWhile reWs (m.dropWhile reWs)) = true
    exact noAdjBy_dropTrailWhile reWs hwsChar _ (noAdjBy_dropWhile hwsChar reWs m hadj)
  · -- every character of the collapsed class is a space
    apply all_dropTrailWhile
    rw [List.all_eq_true] at hall ⊢
    intro x hx
    exact hall x ((List.dropWhile_sublist reWs).subset hx)
  · -- every newline has non-whitespace neighbours
    show adjOkBy nlPairOk (dropTrailWhile reWs (m.dropWhile reWs)) = true
    exact adjOkBy_dropTrailWhile nlPairOk reWs _ (adjOkBy_dropWhile nlPairOk reWs m hnl)

theorem collapseHws_nbsp :
    collapseHws ['a', '\u00A0', ' ', 'b'] = ['a', '\u00A0', ' ', 'b'] := by
  rw [collapseHws, if_neg (by decide), collapseHws, if_neg (by decide),
      collapseHws, if_pos (by decide)]
  rw [show List.dropWhile hwsChar ['b'] = ['b'] from rfl]
  rw [collapseHws, if_neg (by decide), collapseHws]

theorem collapseNl_nbsp :
    collapseNl ['a', '\u00A0', ' ', 'b'] = ['a', '\u00A0', ' ', 'b'] := by
  rw [collapseNl, if_neg (by decide), collapseNl, if_pos (by decide)]
  show 'a' :: ((if (['\u00A0', ' '].contains ('\n')) = true then ['\n']
      else ['\u00A0', ' ']) ++ collapseNl ['b']) = ['a', '\u00A0', ' ', 'b']
  rw [if_neg (by decide), collapseNl, if_neg (by decide), collapseNl]
  rfl

/-- The no-break space U+00A0 — what an &nbsp; entity becomes in the body
textContent — is JavaScript whitespace but lies outside both replace
patterns of normalizeWhitespace, so an NBSP sitting next to a plain space
passes through the distiller untouched. -/
theorem normalizeWhitespace_nbsp :
    normalizeWhitespace "a\u00A0 b" = "a\u00A0 b" := by
  show String.mk (jsTrimL (collapseNl (collapseHws ("a\u00A0 b").toList))) = "a\u00A0 b"
  rw [show ("a\u00A0 b").toList = ['a', '\u00A0', ' ', 'b'] from rfl,
      collapseHws_nbsp, collapseNl_nbsp]
  rfl

/-- C7 counterexample: the distiller violates the claimed invariant on two
real paths.  With HTML parsing unavailable the raw input is returned
unchanged, keeping its leading whitespace; and even with parsing available,
a no-break space adjacent to a plain space is collapsed by neither replace
of normalizeWhitespace, so the output keeps two adjacent whitespace
characters — an uncollapsed internal horizontal whitespace run. -/
theorem distilled_invariant_counterexample :
    (extractBodyTextFromHTML false (fun h => h) (" <p>hi</p>") = " <p>hi</p>" ∧
      wsInvariantStr (extractBodyTextFromHTML false (fun h => h) (" <p>hi</p>")) = false) ∧
    (extractBodyTextFromHTML true (fun _ => "a\u00A0 b") ("<p>x</p>") = "a\u00A0 b" ∧
      noAdjWs (extractBodyTextFromHTML true (fun _ => "a\u00A0 b") ("<p>x</p>")).toList
        = false) := by
  have he : extractBodyTextFromHTML true (fun _ => "a\u00A0 b") ("<p>x</p>")
      = "a\u00A0 b" := by
    unfold extractBodyTextFromHTML
    rw [if_neg (by decide), if_neg (by decide)]
    exact normalizeWhitespace_nbsp
  refine ⟨⟨by decide, by decide⟩, he, ?_⟩
  rw [he]
  decide

/-- C7 amended: whenever HTML parsing is available the distilled output
satisfies, for every input and every body text the parser extracts, the
invariant the two replaces and the trim actually establish — no leading or
trailing whitespace, every character of the collapsed class [\t\f\r ] a
plain space with no two of them adjacent (each such run becomes one
space), and every newline isolated among whitespace (so line breaks are
never duplicated); whitespace outside that class (the vertical tab, the
no-break space and the other Unicode \s characters) passes through
uncollapsed.  normalizeWhitespace establishes the invariant on all inputs;
when parsing is unavailable the input is returned unchanged and may
violate it. -/
theorem distilled_invariant :
    (∀ (bodyTextOf : String → String) (html : String),
      wsInvariantStr (extractBodyTextFromHTML true bodyTextOf html) = true) ∧
    (∀ s : String, wsInvariantStr (normalizeWhitespace s) = true) := by
  refine ⟨?_, normalizeWhitespace_invariant⟩
  intro f html
  unfold extractBodyTextFromHTML
  by_cases h : html = ""
  · rw [if_pos h]
    decide
  · rw [if_neg h]
    simp only [Bool.not_true, Bool.false_eq_true, if_false]
    exact normalizeWhitespace_invariant (f html)
